import Mathlib

/-!
Shallow embedding of the baseline JPEG encoder in `src/toojpeg_17.h` /
`src/toojpeg_17.cpp` (namespace `TooJpeg17`), together with proofs about
the claims of its specification.

Machine integers are modelled as `Nat`/`Int` with explicit `% 2^w` where
the C++ code can wrap.  The `float`/`double` arithmetic of the DCT and
the colour conversions is modelled over `ℚ`; the irrational `constexpr`
constants of the source (`sqrt`-expressions and the AAN scale factors
from the missing `jpeg_constants.h`) are kept abstract in a parameter
record `FloatConsts`, because no claim settled here depends on their
values.
-/

namespace TooJpeg17

/-- `BitCode` from `toojpeg_17.h`: a Huffman code (`uint16_t code`,
`uint8_t numBits`). -/
structure BitCode where
  code : Nat
  numBits : Nat
deriving DecidableEq, Repr

/-- `BitWriter::BitBuffer`: `uint32_t data` (modelled as `Nat`, reduced
`% 2^32` where the C++ value wraps) and `uint8_t numBits`. -/
structure BitBuffer where
  data : Nat
  numBits : Nat
deriving DecidableEq, Repr

/-- The `while (buffer.numBits >= 8)` loop of
`BitWriter::operator<<(const BitCode &)`: extract the highest 8 bits,
emit that byte, and emit an extra `0x00` after an emitted `0xFF`
(JPEG byte stuffing).  With `clear_upper_bits = false` (the default used
by the encoder) `data` is not masked between iterations.  Returns the
emitted bytes and the final `numBits`. -/
def drain (data : Nat) (numBits : Nat) : List Nat × Nat :=
  if h : 8 ≤ numBits then
    let nb := numBits - 8
    let oneByte := (data >>> nb) % 256
    let r := drain data nb
    (if oneByte = 0xFF then oneByte :: 0 :: r.1 else oneByte :: r.1, r.2)
  else
    ([], numBits)
termination_by numBits
decreasing_by omega

/-- `BitWriter::operator<<(const BitCode &)`: append the code's bits on
the right of the buffer, then drain all full bytes.  `numBits` is a
`uint8_t` and `data` a `uint32_t` in the source, hence the reductions. -/
def bwAppend (buf : BitBuffer) (c : BitCode) : BitBuffer × List Nat :=
  let nb := (buf.numBits + c.numBits) % 256
  let d := ((buf.data <<< c.numBits) ||| c.code) % 2 ^ 32
  let r := drain d nb
  (⟨d, r.2⟩, r.1)

/-- Appending a whole sequence of bit codes, concatenating the emitted
bytes in order. -/
def bwRun (buf : BitBuffer) : List BitCode → BitBuffer × List Nat
  | [] => (buf, [])
  | c :: cs =>
    let r1 := bwAppend buf c
    let r2 := bwRun r1.1 cs
    (r2.1, r1.2 ++ r2.2)

/-- JPEG byte-stuffing discipline on a byte list: every `0xFF` is
immediately followed by a `0x00` (in particular no `0xFF` is last). -/
def ffStuffed : List Nat → Bool
  | [] => true
  | b :: tl =>
    if b = 255 then
      match tl with
      | [] => false
      | c :: tl2 => if c = 0 then ffStuffed tl2 else false
    else ffStuffed tl

/-- `BitWriter::addMarker(id, length)`: the four bytes
`0xFF id (length>>8) (length&0xFF)`; `length` is a `uint16_t`. -/
def addMarker (id length : Nat) : List Nat :=
  [0xFF, id % 256, (length >>> 8) % 256, length % 256]

/-! ### Codewords for quantized DCT coefficients

`codewords_for_quantized_dct` in `toojpeg_17.h` fills the array entries
for `value = 1 .. CodeWordLimit-1` while maintaining `numBits` (position
of the highest set bit) and `mask = 2^numBits - 1`.  The entry written
at `±value` is fully determined by the running state at that `value`,
which `cwState` computes; `value = 0` (and indices outside
`(-CodeWordLimit, CodeWordLimit)`) are never written and keep the
value-initialized `BitCode`, i.e. `(0, 0)`. -/

/-- `CodeWordLimit` from the spec (§4.E): 2048. -/
def CodeWordLimit : Nat := 2048

/-- The running `(numBits, mask)` state of the loop in
`codewords_for_quantized_dct` at iteration `value` (after the
`if (value > mask)` update); `cwState 0` is the initial `(1, 1)`.
`(mask << 1) | 1` is written `2 * mask + 1` (equal on `Nat` since the
low bit of `mask << 1` is clear). -/
def cwState : Nat → Nat × Nat
  | 0 => (1, 1)
  | v + 1 =>
    let s := cwState v
    if v + 1 > s.2 then (s.1 + 1, 2 * s.2 + 1) else s

/-- `codewords[v]` (i.e. `codewordsArray[v + CodeWordLimit]`): the pair
`(code, numBits)` written by the loop, `(0, 0)` for untouched entries. -/
def codeword (v : Int) : BitCode :=
  if 1 ≤ v.natAbs ∧ v.natAbs < CodeWordLimit then
    let s := cwState v.natAbs
    if 0 < v then ⟨v.natAbs, s.1⟩ else ⟨s.2 - v.natAbs, s.1⟩
  else ⟨0, 0⟩

/-! ### Huffman code tables (`generateHuffmanTable`) -/

/-- Inner loop of `generateHuffmanTable`: assign consecutive codes
(`uint16_t huffmanCode++`) of length `numBits` to the next values. -/
def htLevel (code numBits : Nat) : List Nat → List (Nat × BitCode)
  | [] => []
  | v :: rest => (v, ⟨code % 65536, numBits⟩) :: htLevel (code + 1) numBits rest

/-- State of the outer loop of `generateHuffmanTable`. -/
structure HtSt where
  code : Nat
  vals : List Nat
  entries : List (Nat × BitCode)

/-- One outer-loop iteration of `generateHuffmanTable` for bit size
`numBits`: consume `numCodes[numBits-1]` values, then
`huffmanCode <<= 1` (a `uint16_t`). -/
def htFold (numCodes : Nat → Nat) (st : HtSt) (numBits : Nat) : HtSt :=
  let n := numCodes (numBits - 1)
  { code := ((st.code + n) <<< 1) % 65536
    vals := st.vals.drop n
    entries := st.entries ++ htLevel st.code numBits (st.vals.take n) }

/-- Turn the entry list into the dense `std::array<BitCode, 256>`:
entries overwrite in write order, untouched slots are the
value-initialized `BitCode`, i.e. `(0, 0)`. -/
def tableOfEntries (l : List (Nat × BitCode)) : Nat → BitCode :=
  l.foldl (fun f e => Function.update f e.1 e.2) fun _ => ⟨0, 0⟩

/-- `generateHuffmanTable(numCodes, values)` from `toojpeg_17.cpp`. -/
def generateHuffmanTable (numCodes : Nat → Nat) (values : List Nat) : Nat → BitCode :=
  tableOfEntries (((List.range' 1 16).foldl (htFold numCodes) ⟨0, values, []⟩).entries)

/-! ### Static tables

Modelled from the spec: `jpeg_constants.h` is not part of the sources
under `src/`, so the static tables it defines (`ZigZagInv`, the default
quantization matrices, and the four baseline Huffman specification
tables) are taken from §4.B of the spec: the standard JPEG zig-zag
permutation, the JPEG Annex K quantization matrices, and the baseline
"typical" Huffman tables of the JPEG specification. -/

/-- Modelled from the spec: `ZigZagInv` — the standard JPEG zig-zag
permutation; `ZigZagInv[i]` is the natural (row-major) position of
zig-zag position `i` (§4.B: used to read natural-order DCT output in
zig-zag order). -/
def ZigZagInvL : List (Fin 64) :=
  [0, 1, 8, 16, 9, 2, 3, 10,
   17, 24, 32, 25, 18, 11, 4, 5,
   12, 19, 26, 33, 40, 48, 41, 34,
   27, 20, 13, 6, 7, 14, 21, 28,
   35, 42, 49, 56, 57, 50, 43, 36,
   29, 22, 15, 23, 30, 37, 44, 51,
   58, 59, 52, 45, 38, 31, 39, 46,
   53, 60, 61, 54, 47, 55, 62, 63]

/-- `ZigZagInv` as a function on `Fin 64`. -/
def ZigZagInv (i : Fin 64) : Fin 64 := ZigZagInvL.getD i.val 0

/-- Modelled from the spec: `DefaultQuantLuminance_A` — the JPEG
Annex K luminance quantization matrix, in natural (row-major) order as
consumed through `ZigZagInv` by the `quant_table` builder. -/
def DefaultQuantLuminance_A : Fin 64 → Nat := fun i =>
  [16, 11, 10, 16, 24, 40, 51, 61,
   12, 12, 14, 19, 26, 58, 60, 55,
   14, 13, 16, 24, 40, 57, 69, 56,
   14, 17, 22, 29, 51, 87, 80, 62,
   18, 22, 37, 56, 68, 109, 103, 77,
   24, 35, 55, 64, 81, 104, 113, 92,
   49, 64, 78, 87, 103, 121, 120, 101,
   72, 92, 95, 98, 112, 100, 103, 99].getD i.val 0

/-- Modelled from the spec: `DefaultQuantChrominance_A` — the JPEG
Annex K chrominance quantization matrix (natural order). -/
def DefaultQuantChrominance_A : Fin 64 → Nat := fun i =>
  [17, 18, 24, 47, 99, 99, 99, 99,
   18, 21, 26, 66, 99, 99, 99, 99,
   24, 26, 56, 99, 99, 99, 99, 99,
   47, 66, 99, 99, 99, 99, 99, 99,
   99, 99, 99, 99, 99, 99, 99, 99,
   99, 99, 99, 99, 99, 99, 99, 99,
   99, 99, 99, 99, 99, 99, 99, 99,
   99, 99, 99, 99, 99, 99, 99, 99].getD i.val 0

/-- Modelled from the spec: `DcLuminanceCodesPerBitsize` (16 counts). -/
def DcLuminanceCodesPerBitsize : List Nat :=
  [0, 1, 5, 1, 1, 1, 1, 1, 1, 0, 0, 0, 0, 0, 0, 0]

/-- Modelled from the spec: `DcLuminanceValues` (12 values). -/
def DcLuminanceValues : List Nat :=
  [0, 1, 2, 3, 4, 5, 6, 7, 8, 9, 10, 11]

/-- Modelled from the spec: `DcChrominanceCodesPerBitsize`. -/
def DcChrominanceCodesPerBitsize : List Nat :=
  [0, 3, 1, 1, 1, 1, 1, 1, 1, 1, 1, 0, 0, 0, 0, 0]

/-- Modelled from the spec: `DcChrominanceValues`. -/
def DcChrominanceValues : List Nat :=
  [0, 1, 2, 3, 4, 5, 6, 7, 8, 9, 10, 11]

/-- Modelled from the spec: `AcLuminanceCodesPerBitsize`. -/
def AcLuminanceCodesPerBitsize : List Nat :=
  [0, 2, 1, 3, 3, 2, 4, 3, 5, 5, 4, 4, 0, 0, 1, 125]

/-- Modelled from the spec: `AcLuminanceValues` (162 values, the JPEG
baseline typical AC luminance table). -/
def AcLuminanceValues : List Nat :=
  [0x01, 0x02, 0x03, 0x00, 0x04, 0x11, 0x05, 0x12, 0x21, 0x31, 0x41, 0x06, 0x13, 0x51, 0x61, 0x07,
   0x22, 0x71, 0x14, 0x32, 0x81, 0x91, 0xA1, 0x08, 0x23, 0x42, 0xB1, 0xC1, 0x15, 0x52, 0xD1, 0xF0,
   0x24, 0x33, 0x62, 0x72, 0x82, 0x09, 0x0A, 0x16, 0x17, 0x18, 0x19, 0x1A, 0x25, 0x26, 0x27, 0x28,
   0x29, 0x2A, 0x34, 0x35, 0x36, 0x37, 0x38, 0x39, 0x3A, 0x43, 0x44, 0x45, 0x46, 0x47, 0x48, 0x49,
   0x4A, 0x53, 0x54, 0x55, 0x56, 0x57, 0x58, 0x59, 0x5A, 0x63, 0x64, 0x65, 0x66, 0x67, 0x68, 0x69,
   0x6A, 0x73, 0x74, 0x75, 0x76, 0x77, 0x78, 0x79, 0x7A, 0x83, 0x84, 0x85, 0x86, 0x87, 0x88, 0x89,
   0x8A, 0x92, 0x93, 0x94, 0x95, 0x96, 0x97, 0x98, 0x99, 0x9A, 0xA2, 0xA3, 0xA4, 0xA5, 0xA6, 0xA7,
   0xA8, 0xA9, 0xAA, 0xB2, 0xB3, 0xB4, 0xB5, 0xB6, 0xB7, 0xB8, 0xB9, 0xBA, 0xC2, 0xC3, 0xC4, 0xC5,
   0xC6, 0xC7, 0xC8, 0xC9, 0xCA, 0xD2, 0xD3, 0xD4, 0xD5, 0xD6, 0xD7, 0xD8, 0xD9, 0xDA, 0xE1, 0xE2,
   0xE3, 0xE4, 0xE5, 0xE6, 0xE7, 0xE8, 0xE9, 0xEA, 0xF1, 0xF2, 0xF3, 0xF4, 0xF5, 0xF6, 0xF7, 0xF8,
   0xF9, 0xFA]

/-- Modelled from the spec: `AcChrominanceCodesPerBitsize`. -/
def AcChrominanceCodesPerBitsize : List Nat :=
  [0, 2, 1, 2, 4, 4, 3, 4, 7, 5, 4, 4, 0, 1, 2, 119]

/-- Modelled from the spec: `AcChrominanceValues` (162 values). -/
def AcChrominanceValues : List Nat :=
  [0x00, 0x01, 0x02, 0x03, 0x11, 0x04, 0x05, 0x21, 0x31, 0x06, 0x12, 0x41, 0x51, 0x07, 0x61, 0x71,
   0x13, 0x22, 0x32, 0x81, 0x08, 0x14, 0x42, 0x91, 0xA1, 0xB1, 0xC1, 0x09, 0x23, 0x33, 0x52, 0xF0,
   0x15, 0x62, 0x72, 0xD1, 0x0A, 0x16, 0x24, 0x34, 0xE1, 0x25, 0xF1, 0x17, 0x18, 0x19, 0x1A, 0x26,
   0x27, 0x28, 0x29, 0x2A, 0x35, 0x36, 0x37, 0x38, 0x39, 0x3A, 0x43, 0x44, 0x45, 0x46, 0x47, 0x48,
   0x49, 0x4A, 0x53, 0x54, 0x55, 0x56, 0x57, 0x58, 0x59, 0x5A, 0x63, 0x64, 0x65, 0x66, 0x67, 0x68,
   0x69, 0x6A, 0x73, 0x74, 0x75, 0x76, 0x77, 0x78, 0x79, 0x7A, 0x82, 0x83, 0x84, 0x85, 0x86, 0x87,
   0x88, 0x89, 0x8A, 0x92, 0x93, 0x94, 0x95, 0x96, 0x97, 0x98, 0x99, 0x9A, 0xA2, 0xA3, 0xA4, 0xA5,
   0xA6, 0xA7, 0xA8, 0xA9, 0xAA, 0xB2, 0xB3, 0xB4, 0xB5, 0xB6, 0xB7, 0xB8, 0xB9, 0xBA, 0xC2, 0xC3,
   0xC4, 0xC5, 0xC6, 0xC7, 0xC8, 0xC9, 0xCA, 0xD2, 0xD3, 0xD4, 0xD5, 0xD6, 0xD7, 0xD8, 0xD9, 0xDA,
   0xE2, 0xE3, 0xE4, 0xE5, 0xE6, 0xE7, 0xE8, 0xE9, 0xEA, 0xF2, 0xF3, 0xF4, 0xF5, 0xF6, 0xF7, 0xF8,
   0xF9, 0xFA]

/-- `ht_l_dc` (`generateHuffmanTable(DcLuminanceCodesPerBitsize, DcLuminanceValues)`). -/
def ht_l_dc : Nat → BitCode :=
  generateHuffmanTable (fun i => DcLuminanceCodesPerBitsize.getD i 0) DcLuminanceValues

/-- `ht_l_ac`. -/
def ht_l_ac : Nat → BitCode :=
  generateHuffmanTable (fun i => AcLuminanceCodesPerBitsize.getD i 0) AcLuminanceValues

/-- `ht_c_dc`. -/
def ht_c_dc : Nat → BitCode :=
  generateHuffmanTable (fun i => DcChrominanceCodesPerBitsize.getD i 0) DcChrominanceValues

/-- `ht_c_ac`. -/
def ht_c_ac : Nat → BitCode :=
  generateHuffmanTable (fun i => AcChrominanceCodesPerBitsize.getD i 0) AcChrominanceValues

/-- `huffman(luminance)`: the `(DC, AC)` table pair. -/
def huffman (luminance : Bool) : (Nat → BitCode) × (Nat → BitCode) :=
  if luminance then (ht_l_dc, ht_l_ac) else (ht_c_dc, ht_c_ac)

/-! ### Quantization tables -/

/-- `quant_table(defaults, quality)` from `toojpeg_17.h`.  Note the
parameter `quality` is an `unsigned char` in the source: both callers
pass the (possibly much larger) libjpeg scale factor, which is
converted `% 256` at the call sites below.
`std::clamp(luminance, 1, 255)` on the non-negative quotient is
`min (max · 1) 255`. -/
def quant_table (defaults : Fin 64 → Nat) (quality : Nat) : Fin 64 → Nat :=
  fun i => min (max ((defaults (ZigZagInv i) * quality + 50) / 100) 1) 255

/-- The irrational `float`/`double` constants of the source, kept
abstract (floating point is not representable here; no claim settled in
this file depends on their values): the four `constexpr` DCT constants
of `DCT` in `toojpeg_17.cpp` and the `AanScaleFactors` table of the
missing `jpeg_constants.h` (§4.B of the spec). -/
structure FloatConsts where
  SqrtHalfSqrt : ℚ
  InvSqrt : ℚ
  HalfSqrtSqrt : ℚ
  InvSqrtSqrt : ℚ
  AanScaleFactors : Fin 8 → ℚ

/-- A concrete instantiation of `FloatConsts` used to evaluate the model
on concrete inputs (the claims proved on the model hold for every
instantiation). -/
def testConsts : FloatConsts := ⟨1, 1, 1, 1, fun _ => 1⟩

/-- `scaled_luminance(quantLuminance)` from `toojpeg_17.h`: scatter
`factor / quant[i]` to natural position `ZigZagInv[i]` of a
zero-initialized array. -/
def scaled_luminance (K : FloatConsts) (quantLuminance : Fin 64 → Nat) : Fin 64 → ℚ :=
  (List.finRange 64).foldl
    (fun acc i =>
      let row : Fin 8 := ⟨(ZigZagInv i).val / 8, by omega⟩
      let column : Fin 8 := ⟨(ZigZagInv i).val % 8, by omega⟩
      let factor := 1 / (K.AanScaleFactors row * K.AanScaleFactors column * 8)
      Function.update acc (ZigZagInv i) (factor / (quantLuminance i : ℚ)))
    fun _ => 0

/-- `scaled_chrominance(quantChrominance)`: same computation as
`scaled_luminance`. -/
def scaled_chrominance (K : FloatConsts) (quantChrominance : Fin 64 → Nat) : Fin 64 → ℚ :=
  (List.finRange 64).foldl
    (fun acc i =>
      let row : Fin 8 := ⟨(ZigZagInv i).val / 8, by omega⟩
      let column : Fin 8 := ⟨(ZigZagInv i).val % 8, by omega⟩
      let factor := 1 / (K.AanScaleFactors row * K.AanScaleFactors column * 8)
      Function.update acc (ZigZagInv i) (factor / (quantChrominance i : ℚ)))
    fun _ => 0

/-! ### DCT and rounding -/

/-- `std::nearbyint` in the default rounding mode: round to nearest,
ties to even. -/
def nearbyint (x : ℚ) : Int :=
  let f := ⌊x⌋
  let r := x - f
  if r < 1 / 2 then f
  else if 1 / 2 < r then f + 1
  else if f % 2 = 0 then f else f + 1

/-- The 8-point AAN butterfly of `DCT` in `toojpeg_17.cpp`, acting on
the 8 stride-addressed entries (all reads of the block happen before the
in-place writes, so the functional translation is direct). -/
def DCT8 (K : FloatConsts) (v : Fin 8 → ℚ) : Fin 8 → ℚ :=
  let add07 := v 0 + v 7
  let sub07 := v 0 - v 7
  let add16 := v 1 + v 6
  let sub16 := v 1 - v 6
  let add25 := v 2 + v 5
  let sub25 := v 2 - v 5
  let add34 := v 3 + v 4
  let sub34 := v 3 - v 4
  let add0347 := add07 + add34
  let sub07_34 := add07 - add34
  let add1256 := add16 + add25
  let sub16_25 := add16 - add25
  let z1 := (sub16_25 + sub07_34) * K.InvSqrt
  let sub23_45 := sub25 + sub34
  let sub12_56 := sub16 + sub25
  let sub01_67 := sub16 + sub07
  let z5 := (sub23_45 - sub01_67) * K.HalfSqrtSqrt
  let z2 := sub23_45 * K.InvSqrtSqrt + z5
  let z3 := sub12_56 * K.InvSqrt
  let z4 := sub01_67 * K.SqrtHalfSqrt + z5
  let z6 := sub07 + z3
  let z7 := sub07 - z3
  ![add0347 + add1256, z6 + z4, sub07_34 + z1, z7 - z2,
    add0347 - add1256, z7 + z2, sub07_34 - z1, z6 - z4]

/-- `DCT(block + offset*8, true)` for all 8 rows: the row pass. -/
def dctRows (K : FloatConsts) (b : Fin 8 → Fin 8 → ℚ) : Fin 8 → Fin 8 → ℚ :=
  fun r => DCT8 K (b r)

/-- `DCT(block + offset*1, false)` for all 8 columns: the column pass
(stride 8). -/
def dctCols (K : FloatConsts) (b : Fin 8 → Fin 8 → ℚ) : Fin 8 → Fin 8 → ℚ :=
  fun r c => DCT8 K (fun k => b k c) r

/-! ### AC run-length coding (`encode_block`)

The AC part of `encode_block` walks `quantized[1..posNonZero]` with an
outer `for` loop and an inner zero-skipping `while` loop.  The bounded
`while` is modelled with explicit fuel (`innerSkip`); the fuel is an
upper bound on the number of iterations, and the safety claim C10 shows
the loop always exits through its condition (`q i ≠ 0`) before the fuel
runs out.  Emissions are recorded symbolically: `.sym s` is
`writer << huffmanAC[s]` (or `huffmanDC` for the DC part) and `.val v`
is `writer << codewords[v]`. -/

/-- A recorded Huffman emission of `encode_block`. -/
inductive AcEmit where
  | sym (s : Nat)
  | val (v : Int)
deriving DecidableEq, Repr

/-- The `posNonZero` computation of `encode_block`: the loop
`for i = 1..63` remembers the last `i` with `quantized[i] ≠ 0`. -/
def posNonZero (q : Nat → Int) : Nat :=
  (List.range' 1 63).foldl (fun acc i => if q i ≠ 0 then i else acc) 0

/-- The inner `while (quantized[i] == 0)` loop: bump the zero-run
counter `offset` by `0x10`, emit the ZRL symbol `0xF0` whenever
`offset > 0xF0`, and advance `i`.  Returns the emitted symbols, the
final `i` and the final `offset`. -/
def innerSkip (q : Nat → Int) : Nat → Nat → Nat → List AcEmit × Nat × Nat
  | 0, i, offset => ([], i, offset)
  | fuel + 1, i, offset =>
    if q i = 0 then
      let offset2 := offset + 0x10
      if offset2 > 0xF0 then
        let r := innerSkip q fuel (i + 1) 0
        (AcEmit.sym 0xF0 :: r.1, r.2)
      else innerSkip q fuel (i + 1) offset2
    else ([], i, offset)

/-- The outer `for (i = 1; i <= posNonZero; i++)` loop of
`encode_block`: skip zeros with `innerSkip`, then emit the AC symbol
`offset + numBits` followed by the codeword of the non-zero value.
`nb v` stands for `codewords[v].numBits`. -/
def outerLoop (q : Nat → Int) (pnz : Nat) (nb : Int → Nat) :
    Nat → Nat → Nat → List AcEmit
  | 0, _, _ => []
  | fuel + 1, i, offset =>
    if i ≤ pnz then
      let r := innerSkip q 64 i offset
      r.1 ++ AcEmit.sym (r.2.2 + nb (q r.2.1)) :: AcEmit.val (q r.2.1) ::
        outerLoop q pnz nb fuel (r.2.1 + 1) 0
    else []

/-- The complete AC emission sequence of `encode_block`: the run-length
loop from `i = 1`, then the end-of-block symbol `0x00` iff
`posNonZero < 63`. -/
def acEvents (q : Nat → Int) (nb : Int → Nat) : List AcEmit :=
  let pnz := posNonZero q
  outerLoop q pnz nb 64 1 0 ++ if pnz < 63 then [AcEmit.sym 0x00] else []

/-- Splits a coefficient list (ending in its last non-zero value) into
`(run, value)` pairs: each non-zero value paired with the number of
zeros immediately preceding it.  Written from the spec's wording of
§4.G. -/
def zeroRuns : List Int → List (Nat × Int)
  | [] => []
  | x :: xs =>
    if x = 0 then
      match zeroRuns xs with
      | [] => []
      | (r, v) :: rest => (r + 1, v) :: rest
    else (0, x) :: zeroRuns xs

/-- The spec's description of the AC emission (§4.G / claim C4): for
each non-zero coefficient preceded by a run of `r` zeros, emit one ZRL
symbol `0xF0` per full 16-zero run (`r / 16` of them), then the AC
symbol holding the remaining run length in its high nibble, then the
value's codeword.  Trailing zeros (dropped by `zeroRuns` together with
the restriction to the prefix ending at the last non-zero value)
contribute nothing. -/
def specAC (nb : Int → Nat) (l : List Int) : List AcEmit :=
  (zeroRuns l).flatMap fun rv =>
    List.replicate (rv.1 / 16) (AcEmit.sym 0xF0) ++
      [AcEmit.sym ((rv.1 % 16) * 16 + nb rv.2), AcEmit.val rv.2]

/-! ### The block encoder -/

/-- The byte-collecting bit writer: the `BitBuffer` plus all bytes
passed to the output callback so far, in order. -/
structure BWSt where
  buf : BitBuffer
  out : List Nat
deriving Repr

/-- `writer << bitcode`. -/
def emitBC (st : BWSt) (c : BitCode) : BWSt :=
  let r := bwAppend st.buf c
  ⟨r.1, st.out ++ r.2⟩

/-- Replay of one recorded AC emission through the bit writer:
`.sym n` is `writer << huffmanAC[n]`, `.val v` is
`writer << codewords[v]`. -/
def acStep (hac : Nat → BitCode) (cw : Int → BitCode) (s : BWSt) (e : AcEmit) : BWSt :=
  match e with
  | .sym n => emitBC s (hac n)
  | .val v => emitBC s (cw v)

/-- `encode_block<luminance>` from `toojpeg_17.cpp` on a centered 8×8
sample block: two DCT passes, scaling, rounding, DC differential
emission, AC run-length emission.  The global `codewordsArray` lookup is
passed as the parameter `cw` (instantiated with `codeword` by the
encoder); the block is the row-major `float[64]` of the source viewed as
`Fin 8 → Fin 8 → ℚ`. -/
def encode_block (K : FloatConsts) (cw : Int → BitCode) (luminance : Bool)
    (st : BWSt) (block : Fin 8 → Fin 8 → ℚ) (scaled : Fin 64 → ℚ)
    (lastDC : Int) : BWSt × Int :=
  let h := huffman luminance
  let b1 := dctCols K (dctRows K block)
  let scaledBlock : Fin 64 → ℚ := fun i =>
    b1 ⟨i.val / 8, by omega⟩ ⟨i.val % 8, by omega⟩ * scaled i
  let DC : Int := nearbyint (scaledBlock 0)
  let quantized : Nat → Int := fun i =>
    if hi : i < 64 then nearbyint (scaledBlock (ZigZagInv ⟨i, hi⟩)) else 0
  let diff := DC - lastDC
  let st :=
    if diff = 0 then emitBC st (h.1 0x00)
    else emitBC (emitBC st (h.1 (cw diff).numBits)) (cw diff)
  let st := (acEvents quantized fun v => (cw v).numBits).foldl (acStep h.2 cw) st
  (st, DC)

/-! ### Colour conversion (`rgb2y`, `rgb2cb`, `rgb2cr`)

The `float` coefficients of the source are exact decimal literals,
modelled by the corresponding rationals. -/

/-- `rgb2y`. -/
def rgb2y (r g b : ℚ) : ℚ := 0.299 * r + 0.587 * g + 0.114 * b

/-- `rgb2cb`. -/
def rgb2cb (r g b : ℚ) : ℚ := -0.16874 * r - 0.33126 * g + 0.5 * b

/-- `rgb2cr`. -/
def rgb2cr (r g b : ℚ) : ℚ := 0.5 * r - 0.41869 * g - 0.08131 * b

/-! ### MCU extraction (`writeJpegIntern`, pixel loop)

For every 8×8 block the source computes, per `deltaY`,
`column = min(mcuX + blockX, maxWidth)` and then post-increments
`column` while `column < maxWidth` inside the `deltaX` loop.
`sampleCol maxW c0 d` is the column used at `deltaX = d`. -/

/-- The column used at `deltaX = d` by the pixel loop: starts at
`min c0 maxW`, incremented after each step while `< maxW`. -/
def sampleCol (maxW c0 : Nat) : Nat → Nat
  | 0 => min c0 maxW
  | d + 1 =>
    let c := sampleCol maxW c0 d
    if c < maxW then c + 1 else c

/-- The row used at `deltaY`: `min (mcuY + blockY + deltaY) maxHeight`. -/
def blockRow (maxH mcuY bY dy : Nat) : Nat := min (mcuY + bY + dy) maxH

/-- The Y (luma) 8×8 sample block filled by the pixel loop for the block
at `(mcuX + bX, mcuY + bY)`: grayscale reads `pixels[pos] - 128`, RGB
applies `rgb2y - 128` to the 3 bytes at `3*pos`. -/
def fillY (isRGB : Bool) (px : Nat → Nat) (W maxW maxH mcuX mcuY bX bY : Nat) :
    Fin 8 → Fin 8 → ℚ := fun dy dx =>
  let row := blockRow maxH mcuY bY dy.val
  let column := sampleCol maxW (mcuX + bX) dx.val
  let pixelPos := row * W + column
  if isRGB then
    rgb2y (px (3 * pixelPos)) (px (3 * pixelPos + 1)) (px (3 * pixelPos + 2)) - 128
  else (px pixelPos : ℚ) - 128

/-- The Cb block of the 4:4:4 path (filled in the same pixel loop). -/
def fillCb (px : Nat → Nat) (W maxW maxH mcuX mcuY bX bY : Nat) :
    Fin 8 → Fin 8 → ℚ := fun dy dx =>
  let row := blockRow maxH mcuY bY dy.val
  let column := sampleCol maxW (mcuX + bX) dx.val
  let pixelPos := row * W + column
  rgb2cb (px (3 * pixelPos)) (px (3 * pixelPos + 1)) (px (3 * pixelPos + 2))

/-- The Cr block of the 4:4:4 path. -/
def fillCr (px : Nat → Nat) (W maxW maxH mcuX mcuY bX bY : Nat) :
    Fin 8 → Fin 8 → ℚ := fun dy dx =>
  let row := blockRow maxH mcuY bY dy.val
  let column := sampleCol maxW (mcuX + bX) dx.val
  let pixelPos := row * W + column
  rgb2cr (px (3 * pixelPos)) (px (3 * pixelPos + 1)) (px (3 * pixelPos + 2))

/-! ### 4:2:0 chroma downsampling -/

/-- Per-`deltaX` state of the 4:2:0 chroma row loop: `pixelPos`,
`column` and `columnStep` as maintained by the source. -/
structure ChromaSt where
  pixelPos : Nat
  column : Nat
  columnStep : Nat

/-- State of the 4:2:0 chroma loop at the start of iteration `deltaX`
for the row `row = min(mcuY + 2*deltaY, maxHeight)`. -/
def chromaSt (W maxW row mcuX : Nat) : Nat → ChromaSt
  | 0 => ⟨(row * W + mcuX) * 3, mcuX, if mcuX < maxW then 3 else 0⟩
  | d + 1 =>
    let s := chromaSt W maxW row mcuX d
    let pixelPos := s.pixelPos + 2 * 3
    let column := s.column + 2
    if column ≥ maxW then ⟨((row + 1) * W - 1) * 3, column, 0⟩
    else ⟨pixelPos, column, s.columnStep⟩

/-- One downsampled chroma sample of the 4:2:0 loop: sum the 2×2 area,
convert, divide by 4 after the conversion (as the source does). -/
def chroma420 (conv : ℚ → ℚ → ℚ → ℚ) (px : Nat → Nat) (W maxW maxH mcuX mcuY : Nat) :
    Fin 8 → Fin 8 → ℚ := fun dy dx =>
  let row := min (mcuY + 2 * dy.val) maxH
  let rowStep := if row < maxH then 3 * W else 0
  let s := chromaSt W maxW row mcuX dx.val
  let pixelPos := s.pixelPos
  let right := pixelPos + s.columnStep
  let down := pixelPos + rowStep
  let downRight := pixelPos + s.columnStep + rowStep
  let r : ℚ := (px pixelPos : ℚ) + px right + px down + px downRight
  let g : ℚ := (px (pixelPos + 1) : ℚ) + px (right + 1) + px (down + 1) + px (downRight + 1)
  let b : ℚ := (px (pixelPos + 2) : ℚ) + px (right + 2) + px (down + 2) + px (downRight + 2)
  conv r g b / 4

/-! ### The container driver (`writeJpegIntern`) -/

/-- The per-image mutable state of `writeJpegIntern`: the bit writer and
the three per-channel previous DC coefficients. -/
structure EncSt where
  bw : BWSt
  lastYDC : Int
  lastCbDC : Int
  lastCrDC : Int

/-- The values taken by the loop variable of
`for (v = 0; v < limit; v += step)`. -/
def stepRange (limit step : Nat) : List Nat :=
  (List.range ((limit + step - 1) / step)).map (· * step)

/-- The `(blockY, blockX)` offsets of the Y-block loop within one MCU:
one block for 8×8 MCUs, four (in raster order) for 16×16 MCUs. -/
def blockOffsets (mcuSize : Nat) : List (Nat × Nat) :=
  (stepRange mcuSize 8).flatMap fun bY => (stepRange mcuSize 8).map fun bX => (bY, bX)

/-- Processing of one MCU at `(mcuX, mcuY)`: encode the Y block(s), then
(for RGB) fill Cb/Cr — by the 4:4:4 pixel loop or the 4:2:0
downsampler — and encode them with the chrominance tables. -/
def processMCU (K : FloatConsts) (px : Nat → Nat) (W maxW maxH : Nat)
    (downsample isRGB : Bool) (scaledLuminance scaledChrominance : Fin 64 → ℚ)
    (mcuSize : Nat) (st : EncSt) (mcuY mcuX : Nat) : EncSt :=
  let st := (blockOffsets mcuSize).foldl
    (fun s bYX =>
      let Yblk := fillY isRGB px W maxW maxH mcuX mcuY bYX.2 bYX.1
      let r := encode_block K codeword true s.bw Yblk scaledLuminance s.lastYDC
      { s with bw := r.1, lastYDC := r.2 })
    st
  if !isRGB then st
  else
    let CbBlk :=
      if downsample then chroma420 rgb2cb px W maxW maxH mcuX mcuY
      else fillCb px W maxW maxH mcuX mcuY 0 0
    let CrBlk :=
      if downsample then chroma420 rgb2cr px W maxW maxH mcuX mcuY
      else fillCr px W maxW maxH mcuX mcuY 0 0
    let rb := encode_block K codeword false st.bw CbBlk scaledChrominance st.lastCbDC
    let rr := encode_block K codeword false rb.1 CrBlk scaledChrominance st.lastCrDC
    { st with bw := rr.1, lastCbDC := rb.2, lastCrDC := rr.2 }

/-- The 20-byte SOI + APP0/JFIF header (`HeaderJfif`). -/
def HeaderJfif : List Nat :=
  [0xFF, 0xD8, 0xFF, 0xE0, 0, 16, 74, 70, 73, 70, 0, 1, 1, 0, 0, 1, 0, 1, 0, 0]

/-- A 64-entry table as the byte list of `std::array<uint8_t, 64>`. -/
def quantList (t : Fin 64 → Nat) : List Nat := (List.finRange 64).map fun i => t i

/-- `writeJpegIntern` from `toojpeg_17.cpp`: emit all JFIF segments,
drive the MCU loop, flush the bit buffer and emit EOI.  The pixel buffer
is a byte function, the sink is modelled by collecting the emitted bytes
in order; the function returns `(true, bytes)` as the source always
returns `true` once called. -/
def writeJpegIntern (K : FloatConsts) (px : Nat → Nat) (width height : Nat)
    (downsample isRGB : Bool) (quantLuminance quantChrominance : Fin 64 → Nat)
    (scaledLuminance scaledChrominance : Fin 64 → ℚ) (comment : List Nat) :
    Bool × List Nat :=
  let numComponents : Nat := if isRGB then 3 else 1
  let dhtLen : Nat := 1 + 16 + 12 + 1 + 16 + 162
  let hdr := HeaderJfif
    ++ (if comment ≠ [] then addMarker 0xFE ((2 + comment.length) % 65536) ++ comment else [])
    ++ addMarker 0xDB ((2 + (if isRGB then 2 else 1) * (1 + 8 * 8)) % 65536)
    ++ 0x00 :: quantList quantLuminance
    ++ (if isRGB then 0x01 :: quantList quantChrominance else [])
    ++ addMarker 0xC0 ((2 + 6 + 3 * numComponents) % 65536)
    ++ [0x08, (height >>> 8) % 256, height % 256, (width >>> 8) % 256, width % 256,
        numComponents % 256]
    ++ ((List.range' 1 numComponents).flatMap fun id =>
        [id % 256, if id = 1 ∧ downsample then 0x22 else 0x11, if id = 1 then 0 else 1])
    ++ addMarker 0xC4 ((if isRGB then 2 + dhtLen + dhtLen else 2 + dhtLen) % 65536)
    ++ 0x00 :: DcLuminanceCodesPerBitsize ++ DcLuminanceValues
    ++ 0x10 :: AcLuminanceCodesPerBitsize ++ AcLuminanceValues
    ++ (if isRGB then
          0x01 :: DcChrominanceCodesPerBitsize ++ DcChrominanceValues
            ++ 0x11 :: AcChrominanceCodesPerBitsize ++ AcChrominanceValues
        else [])
    ++ addMarker 0xDA ((2 + 1 + 2 * numComponents + 3) % 65536)
    ++ numComponents % 256 ::
        ((List.range' 1 numComponents).flatMap fun id =>
          [id % 256, if id = 1 then 0x00 else 0x11])
    ++ [0, 63, 0]
  let maxWidth := width - 1
  let maxHeight := height - 1
  let sampling : Nat := if downsample then 2 else 1
  let mcuSize := 8 * sampling
  -- the sink receives hdr first, then the entropy-coded bytes (collected
  -- below starting from an empty list), then the flushed bits and EOI
  let st0 : EncSt := ⟨⟨⟨0, 0⟩, []⟩, 0, 0, 0⟩
  let st := (stepRange height mcuSize).foldl
    (fun st mcuY =>
      (stepRange width mcuSize).foldl
        (fun st mcuX =>
          processMCU K px width maxWidth maxHeight downsample isRGB
            scaledLuminance scaledChrominance mcuSize st mcuY mcuX)
        st)
    st0
  let bwF := emitBC st.bw ⟨0x7F, 7⟩
  (true, hdr ++ bwF.out ++ [0xFF, 0xD9])

/-- `writeJpegQuality` from `toojpeg_17.cpp`.  The thrown
`std::runtime_error` is modelled as `Except.error` with the source's
message; `return false` as `.ok false`.  The second component is the
byte sequence passed to the sink (empty whenever no byte was emitted).
The null-pointer check is modelled by an `Option` pixel buffer.  Note
`quant_table`'s `unsigned char quality` parameter: the `int` scale
factor is converted `% 256` at the call. -/
def writeJpegQuality (K : FloatConsts) (pixels : Option (Nat → Nat))
    (width height : Nat) (downsample isRGB : Bool) (quality_ : Nat)
    (comment : List Nat) : Except String Bool × List Nat :=
  let downsample := if !isRGB then false else downsample
  if ¬(quality_ > 1 ∧ quality_ ≤ 100) then
    (Except.error "Quality must be in [1..100]", [])
  else
    let quality := if quality_ < 50 then 5000 / quality_ else 200 - quality_ * 2
    match pixels with
    | none => (Except.ok false, [])
    | some px =>
      if width = 0 ∨ height = 0 then (Except.ok false, [])
      else
        let quantLuminance := quant_table DefaultQuantLuminance_A (quality % 256)
        let quantChrominance := quant_table DefaultQuantChrominance_A (quality % 256)
        let scaledLuminance := scaled_luminance K quantLuminance
        let scaledChrominance := scaled_chrominance K quantChrominance
        let r := writeJpegIntern K px width height downsample isRGB
          quantLuminance quantChrominance scaledLuminance scaledChrominance comment
        (Except.ok r.1, r.2)

/-! ### Spec-side definitions used for comparison -/

/-- The libjpeg quality-to-scale mapping as worded by the spec (§4.C):
`s = 5000/q` if `q < 50` else `s = 200 - 2q`.  (The same expression
appears in `writeJpegQuality`; the spec formula applies `s` without the
`unsigned char` conversion of `quant_table`'s parameter.) -/
def libjpegScale (q : Nat) : Nat := if q < 50 then 5000 / q else 200 - 2 * q

/-- The quantization table as worded by the spec and claim C5:
`Q[i] = clamp((D[i]*s + 50)/100, 1, 255)` with `D` the default matrix in
zig-zag order and `s = libjpegScale q`. -/
def quantSpec (D : Fin 64 → Nat) (q : Nat) : Fin 64 → Nat :=
  fun i => min (max ((D i * libjpegScale q + 50) / 100) 1) 255

/-- The zig-zag-order view of a natural-order default matrix:
`D[i] = defaults[ZigZagInv[i]]`. -/
def zigzagView (defaults : Fin 64 → Nat) : Fin 64 → Nat :=
  fun i => defaults (ZigZagInv i)

/-- Recursive characterization of the `posNonZero` loop: the last
`i ∈ [1, n]` with `q i ≠ 0` (0 when there is none). -/
def pnzAux (q : Nat → Int) : Nat → Nat
  | 0 => 0
  | n + 1 => if q (n + 1) ≠ 0 then n + 1 else pnzAux q n

/-! ## Theorems -/

/-! ### C3: byte stuffing in the bit writer -/

theorem ffStuffed_nil : ffStuffed [] = true := rfl

theorem ffStuffed_cons_ne (b : Nat) (tl : List Nat) (h : b ≠ 255) :
    ffStuffed (b :: tl) = ffStuffed tl := by
  cases tl <;> simp [ffStuffed, h]

theorem ffStuffed_ff_cons (tl : List Nat) :
    ffStuffed (255 :: 0 :: tl) = ffStuffed tl := by
  simp [ffStuffed]

/-- A stuffed list followed by a stuffed list is stuffed. -/
theorem ffStuffed_append : ∀ a b : List Nat,
    ffStuffed a = true → ffStuffed b = true → ffStuffed (a ++ b) = true
  | [], b, _, hb => hb
  | x :: tl, b, ha, hb => by
    by_cases hx : x = 255
    · subst hx
      match tl, ha with
      | [], ha => simp [ffStuffed] at ha
      | c :: tl2, ha =>
        by_cases hc : c = 0
        · subst hc
          rw [ffStuffed_ff_cons] at ha
          simpa [ffStuffed_ff_cons] using ffStuffed_append tl2 b ha hb
        · simp [ffStuffed, hc] at ha
    · rw [ffStuffed_cons_ne x _ hx] at ha
      simpa [ffStuffed_cons_ne x _ hx] using ffStuffed_append tl b ha hb

/-- The byte-extraction loop only emits stuffed output. -/
theorem drain_stuffed (d : Nat) : ∀ nb : Nat, ffStuffed (drain d nb).1 = true := by
  intro nb
  induction nb using Nat.strong_induction_on with
  | _ nb ih =>
    rw [drain]
    by_cases h : 8 ≤ nb
    · by_cases hff : (d >>> (nb - 8)) % 256 = 255
      · simpa [h, hff, ffStuffed_ff_cons] using ih (nb - 8) (by omega)
      · simpa [h, hff, ffStuffed_cons_ne] using ih (nb - 8) (by omega)
    · simp [h, ffStuffed]

theorem bwAppend_stuffed (buf : BitBuffer) (c : BitCode) :
    ffStuffed (bwAppend buf c).2 = true := by
  unfold bwAppend
  exact drain_stuffed _ _

/-- Claim C3: for every sequence of bit codes appended to the bit
writer (from any buffer state), whenever a full byte equal to `0xFF` is
extracted from the bit buffer and passed to the sink an extra `0x00`
byte is emitted immediately after it; consequently the emitted byte
sequence satisfies the stuffing discipline: every `0xFF` byte in it is
immediately followed by `0x00`. -/
theorem C3_bitwriter_byte_stuffing (buf : BitBuffer) (codes : List BitCode) :
    ffStuffed (bwRun buf codes).2 = true := by
  induction codes generalizing buf with
  | nil => rfl
  | cons c cs ih =>
    simpa [bwRun] using
      ffStuffed_append _ _ (bwAppend_stuffed buf c) (ih (bwAppend buf c).1)

/-! ### posNonZero -/

theorem posNonZero_eq_pnzAux (q : Nat → Int) : posNonZero q = pnzAux q 63 := by
  suffices h : ∀ n, (List.range' 1 n).foldl (fun acc i => if q i ≠ 0 then i else acc) 0 =
      pnzAux q n from h 63
  intro n
  induction n with
  | zero => rfl
  | succ n ih =>
    rw [List.range'_1_concat, List.foldl_append, ih]
    simp [pnzAux, Nat.add_comm 1 n]

theorem pnzAux_le (q : Nat → Int) : ∀ n, pnzAux q n ≤ n := by
  intro n
  induction n with
  | zero => simp [pnzAux]
  | succ n ih =>
    rw [pnzAux]
    split <;> omega

theorem pnzAux_nonzero (q : Nat → Int) : ∀ n, pnzAux q n ≠ 0 → q (pnzAux q n) ≠ 0 := by
  intro n
  induction n with
  | zero => simp [pnzAux]
  | succ n ih =>
    rw [pnzAux]
    split
    · next h => simpa using h
    · exact ih

theorem pnzAux_zero_after (q : Nat → Int) :
    ∀ n j, pnzAux q n < j → j ≤ n → q j = 0 := by
  intro n
  induction n with
  | zero => intro j h1 h2; omega
  | succ n ih =>
    intro j h1 h2
    rw [pnzAux] at h1
    by_cases hq : q (n + 1) ≠ 0
    · rw [if_pos hq] at h1; omega
    · rw [if_neg hq] at h1
      push_neg at hq
      rcases Nat.lt_or_ge j (n + 1) with hj | hj
      · exact ih j h1 (by omega)
      · have : j = n + 1 := by omega
        simpa [this] using hq

theorem posNonZero_le (q : Nat → Int) : posNonZero q ≤ 63 := by
  rw [posNonZero_eq_pnzAux]; exact pnzAux_le q 63

theorem posNonZero_nonzero (q : Nat → Int) (h : posNonZero q ≠ 0) :
    q (posNonZero q) ≠ 0 := by
  rw [posNonZero_eq_pnzAux] at h ⊢; exact pnzAux_nonzero q 63 h

theorem posNonZero_zero_after (q : Nat → Int) (j : Nat) (h1 : posNonZero q < j)
    (h2 : j ≤ 63) : q j = 0 := by
  rw [posNonZero_eq_pnzAux] at h1; exact pnzAux_zero_after q 63 j h1 h2

theorem posNonZero_lt63_iff (q : Nat → Int) : posNonZero q < 63 ↔ q 63 = 0 := by
  constructor
  · intro h; exact posNonZero_zero_after q 63 h (by omega)
  · intro h
    rcases Nat.lt_or_ge (posNonZero q) 63 with h' | h'
    · exact h'
    · exfalso
      have h63 : posNonZero q = 63 := by have := posNonZero_le q; omega
      have : q (posNonZero q) ≠ 0 := posNonZero_nonzero q (by omega)
      rw [h63] at this
      exact this h

theorem posNonZero_congr (q q' : Nat → Int)
    (h : ∀ j, 1 ≤ j → j ≤ 63 → q' j = q j) : posNonZero q' = posNonZero q := by
  rw [posNonZero_eq_pnzAux, posNonZero_eq_pnzAux]
  suffices hgen : ∀ n, n ≤ 63 → pnzAux q' n = pnzAux q n from hgen 63 le_rfl
  intro n
  induction n with
  | zero => intro _; rfl
  | succ n ih =>
    intro hn
    rw [pnzAux, pnzAux, h (n + 1) (by omega) (by omega), ih (by omega)]

/-! ### The inner zero-skipping while loop -/

/-- Closed form of `innerSkip` when a non-zero coefficient exists `z`
positions ahead (all positions before it holding zeros) and the zero-run
counter holds `offset = 16 * o` with `o ≤ 15`: the loop stops exactly at
that coefficient, emitting one ZRL per full 16-zero count. -/
theorem innerSkip_run (q : Nat → Int) :
    ∀ z fuel i o : Nat, z ≤ fuel → o ≤ 15 →
    (∀ d, d < z → q (i + d) = 0) → q (i + z) ≠ 0 →
    innerSkip q fuel i (16 * o) =
      (List.replicate ((o + z) / 16) (AcEmit.sym 0xF0), i + z, 16 * ((o + z) % 16)) := by
  intro z
  induction z with
  | zero =>
    intro fuel i o _ ho _ hnz
    have hnz' : q i ≠ 0 := by simpa using hnz
    have hdiv : o / 16 = 0 := Nat.div_eq_of_lt (by omega)
    have hmod : o % 16 = o := Nat.mod_eq_of_lt (by omega)
    cases fuel with
    | zero => simp [innerSkip, hdiv, hmod]
    | succ f => simp [innerSkip, hnz', hdiv, hmod]
  | succ z ih =>
    intro fuel i o hf ho hz hnz
    cases fuel with
    | zero => omega
    | succ f =>
      have h0 : q i = 0 := by simpa using hz 0 (by omega)
      have hzs : ∀ d, d < z → q (i + 1 + d) = 0 := by
        intro d hd
        have := hz (d + 1) (by omega)
        simpa [Nat.add_assoc, Nat.add_comm 1 d] using this
      have hnzs : q (i + 1 + z) ≠ 0 := by
        have h : i + (z + 1) = i + 1 + z := by omega
        rw [h] at hnz; exact hnz
      by_cases h15 : o = 15
      · subst h15
        have hcond : 16 * 15 + 0x10 > 0xF0 := by norm_num
        have ihz := ih f (i + 1) 0 (by omega) (by omega) hzs hnzs
        rw [innerSkip]
        simp only [h0, if_pos rfl, hcond, if_pos rfl]
        rw [show (0 : Nat) = 16 * 0 from rfl] at ihz
        rw [ihz]
        have e1 : (15 + (z + 1)) / 16 = (0 + z) / 16 + 1 := by omega
        have e2 : (15 + (z + 1)) % 16 = (0 + z) % 16 := by omega
        have e3 : i + 1 + z = i + (z + 1) := by omega
        simp [e1, e2, e3, List.replicate_succ]
      · have hcond : ¬(16 * o + 0x10 > 0xF0) := by omega
        have ihz := ih f (i + 1) (o + 1) (by omega) (by omega) hzs hnzs
        rw [innerSkip]
        simp only [h0, if_pos rfl, hcond, if_neg, ite_false]
        rw [show 16 * o + 0x10 = 16 * (o + 1) from by ring] at *
        rw [ihz]
        have e1 : o + 1 + z = o + (z + 1) := by omega
        have e3 : i + 1 + z = i + (z + 1) := by omega
        simp [e1, e3]

/-- `innerSkip` starting with a cleared run counter. -/
theorem innerSkip_run0 (q : Nat → Int) (z fuel i : Nat) (hzf : z ≤ fuel)
    (hz : ∀ d, d < z → q (i + d) = 0) (hnz : q (i + z) ≠ 0) :
    innerSkip q fuel i 0 =
      (List.replicate (z / 16) (AcEmit.sym 0xF0), i + z, 16 * (z % 16)) := by
  have h := innerSkip_run q z fuel i 0 hzf (by omega) hz hnz
  simpa using h

/-! ### zeroRuns / specAC -/

theorem zeroRuns_nil : zeroRuns [] = [] := rfl

theorem zeroRuns_run (z : Nat) (v : Int) (hv : v ≠ 0) (rest : List Int) :
    zeroRuns (List.replicate z 0 ++ v :: rest) = (z, v) :: zeroRuns rest := by
  induction z with
  | zero => simp [zeroRuns, hv]
  | succ z ih => simp [List.replicate_succ, zeroRuns, ih]

theorem specAC_nil (nb : Int → Nat) : specAC nb [] = [] := rfl

theorem specAC_run (nb : Int → Nat) (z : Nat) (v : Int) (hv : v ≠ 0) (rest : List Int) :
    specAC nb (List.replicate z 0 ++ v :: rest) =
      List.replicate (z / 16) (AcEmit.sym 0xF0) ++
        AcEmit.sym ((z % 16) * 16 + nb v) :: AcEmit.val v :: specAC nb rest := by
  simp [specAC, zeroRuns_run z v hv rest]

/-- Mapping `q` over a stretch of indices holding zeros. -/
theorem map_range'_zeros (q : Nat → Int) :
    ∀ z i, (∀ d, d < z → q (i + d) = 0) →
      (List.range' i z).map q = List.replicate z 0 := by
  intro z
  induction z with
  | zero => intro i _; rfl
  | succ z ih =>
    intro i hz
    rw [List.range'_succ, List.map_cons, List.replicate_succ]
    have h0 : q i = 0 := by simpa using hz 0 (by omega)
    rw [h0, ih (i + 1) fun d hd => by
      simpa [Nat.add_assoc, Nat.add_comm 1 d] using hz (d + 1) (by omega)]

/-- The outer AC loop, started at index `i` with a cleared run counter,
computes exactly the spec's run-length emission of
`quantized[i .. posNonZero]`. -/
theorem outerLoop_eq (q : Nat → Int) (nb : Int → Nat) (pnz : Nat)
    (hq : q pnz ≠ 0) (hp63 : pnz ≤ 63) :
    ∀ fuel i, 1 ≤ i → pnz + 1 - i ≤ fuel →
      outerLoop q pnz nb fuel i 0 =
        specAC nb ((List.range' i (pnz + 1 - i)).map q) := by
  intro fuel
  induction fuel with
  | zero =>
    intro i _ hfi
    have : pnz + 1 - i = 0 := by omega
    simp [outerLoop, this, specAC_nil]
  | succ f ih =>
    intro i hi1 hfi
    by_cases hi : i ≤ pnz
    · have hex : ∃ d, q (i + d) ≠ 0 := ⟨pnz - i, by rwa [show i + (pnz - i) = pnz by omega]⟩
      set z := Nat.find hex with hzdef
      have hznz : q (i + z) ≠ 0 := Nat.find_spec hex
      have hzzero : ∀ d, d < z → q (i + d) = 0 := by
        intro d hd
        have := Nat.find_min hex hd
        simpa using this
      have hzle : z ≤ pnz - i := by
        apply Nat.find_min'
        rwa [show i + (pnz - i) = pnz by omega]
      have hskip := innerSkip_run0 q z 64 i (by omega) hzzero hznz
      simp only [outerLoop, hi, if_true, hskip]
      have hdec1 : pnz + 1 - i = (pnz + 1 - i - z) + z := by omega
      have hdec2 : pnz + 1 - i - z = (pnz - i - z) + 1 := by omega
      rw [hdec1, ← List.range'_append_1 i z (pnz + 1 - i - z), hdec2,
        List.range'_succ, List.map_append, List.map_cons,
        map_range'_zeros q z i hzzero,
        specAC_run nb z (q (i + z)) hznz]
      have hih := ih (i + z + 1) (by omega) (by omega)
      have harg : pnz + 1 - (i + z + 1) = pnz - i - z := by omega
      rw [harg] at hih
      rw [hih]
      have hmul : 16 * (z % 16) = (z % 16) * 16 := Nat.mul_comm _ _
      rw [hmul]
    · have : pnz + 1 - i = 0 := by omega
      simp [outerLoop, hi, this, specAC_nil]

/-- The complete AC emission of `encode_block` equals the spec's
run-length description on the prefix ending at the last non-zero
coefficient, followed by EOB exactly when position 63 holds zero. -/
theorem acEvents_eq (q : Nat → Int) (nb : Int → Nat) :
    acEvents q nb =
      specAC nb ((List.range' 1 (posNonZero q)).map q) ++
        (if q 63 = 0 then [AcEmit.sym 0x00] else []) := by
  have hle := posNonZero_le q
  have hif : (if posNonZero q < 63 then [AcEmit.sym 0x00] else [])
      = (if q 63 = 0 then [AcEmit.sym 0x00] else []) := by
    rcases (posNonZero_lt63_iff q) with ⟨h1, h2⟩
    by_cases h : posNonZero q < 63
    · rw [if_pos h, if_pos (h1 h)]
    · rw [if_neg h]
      by_cases h' : q 63 = 0
      · exact absurd (h2 h') h
      · rw [if_neg h']
  simp only [acEvents]
  rw [hif]
  congr 1
  by_cases hz : posNonZero q = 0
  · rw [hz]
    simp [outerLoop, specAC_nil]
  · have hnz : q (posNonZero q) ≠ 0 := posNonZero_nonzero q hz
    have h := outerLoop_eq q nb (posNonZero q) hnz hle 64 1 (by omega) (by omega)
    simpa using h

/-- Claim C4: for every 8×8 block (arbitrary quantized coefficients `q`
and codeword bit counts `nb`), the AC emission of `encode_block` is
exactly the spec's run-length coding of the prefix
`quantized[1..posNonZero]`: each non-zero coefficient preceded by a run
of `r` zeros yields `r / 16` ZRL symbols (`0xF0`, one per full 16-zero
run) before its own symbol, trailing zeros after the last non-zero
coefficient contribute nothing (in particular they are never encoded as
ZRL), and the EOB symbol `0x00` is appended iff `posNonZero < 63`,
which holds iff zig-zag position 63 is zero. -/
theorem C4_ac_rle_zrl_eob (q : Nat → Int) (nb : Int → Nat) :
    acEvents q nb =
      specAC nb ((List.range' 1 (posNonZero q)).map q) ++
        (if posNonZero q < 63 then [AcEmit.sym 0x00] else []) ∧
    (posNonZero q < 63 ↔ q 63 = 0) := by
  constructor
  · rw [acEvents_eq]
    congr 1
    rcases posNonZero_lt63_iff q with ⟨h1, h2⟩
    by_cases h : posNonZero q < 63
    · rw [if_pos h, if_pos (h1 h)]
    · rw [if_neg h]
      by_cases h' : q 63 = 0
      · exact absurd (h2 h') h
      · rw [if_neg h']
  · exact posNonZero_lt63_iff q

/-- Claim C10: `posNonZero` stays within `[0, 63]` and, when non-zero,
indexes a non-zero entry of the quantized array; consequently, whenever
the outer AC loop body runs (`1 ≤ i ≤ posNonZero`, zero-run counter a
multiple of `0x10` at most `0xF0`), the inner zero-skipping `while`
loop exits through its condition at an index at most `posNonZero` whose
entry is non-zero, and it reads the array only inside `[1, 63]`: its
result is unchanged under any modification of the array outside
`[1, 63]`. -/
theorem C10_inner_while_safety (q : Nat → Int) :
    posNonZero q ≤ 63 ∧
    (posNonZero q ≠ 0 → q (posNonZero q) ≠ 0) ∧
    (∀ i o : Nat, 1 ≤ i → i ≤ posNonZero q → o ≤ 15 →
      (i ≤ (innerSkip q 64 i (16 * o)).2.1 ∧
        (innerSkip q 64 i (16 * o)).2.1 ≤ posNonZero q ∧
        q (innerSkip q 64 i (16 * o)).2.1 ≠ 0) ∧
      ∀ q' : Nat → Int, (∀ j, 1 ≤ j → j ≤ 63 → q' j = q j) →
        innerSkip q' 64 i (16 * o) = innerSkip q 64 i (16 * o)) := by
  refine ⟨posNonZero_le q, posNonZero_nonzero q, ?_⟩
  intro i o hi1 hip ho
  have hple := posNonZero_le q
  have hpnz : q (posNonZero q) ≠ 0 := posNonZero_nonzero q (by omega)
  have hex : ∃ d, q (i + d) ≠ 0 :=
    ⟨posNonZero q - i, by rwa [show i + (posNonZero q - i) = posNonZero q by omega]⟩
  have hznz : q (i + Nat.find hex) ≠ 0 := Nat.find_spec hex
  have hzzero : ∀ d, d < Nat.find hex → q (i + d) = 0 := by
    intro d hd
    have := Nat.find_min hex hd
    simpa using this
  have hzle : Nat.find hex ≤ posNonZero q - i := by
    apply Nat.find_min'
    rwa [show i + (posNonZero q - i) = posNonZero q by omega]
  have hskip := innerSkip_run q (Nat.find hex) 64 i o (by omega) ho hzzero hznz
  constructor
  · rw [hskip]
    dsimp only
    exact ⟨by omega, by omega, hznz⟩
  · intro q' hagree
    have hzzero' : ∀ d, d < Nat.find hex → q' (i + d) = 0 := by
      intro d hd
      rw [hagree (i + d) (by omega) (by omega)]
      exact hzzero d hd
    have hznz' : q' (i + Nat.find hex) ≠ 0 := by
      rw [hagree (i + Nat.find hex) (by omega) (by omega)]
      exact hznz
    have hskip' := innerSkip_run q' (Nat.find hex) 64 i o (by omega) ho hzzero' hznz'
    rw [hskip, hskip']

/-! ### C7: the codeword table -/

/-- Closed form of the `(numBits, mask)` state of
`codewords_for_quantized_dct` at iteration `v`: `numBits` is the bit
length of `v` and `mask = 2^numBits - 1`. -/
theorem cwState_closed : ∀ v : Nat, 1 ≤ v →
    cwState v = (Nat.log 2 v + 1, 2 ^ (Nat.log 2 v + 1) - 1) := by
  intro v hv
  induction v with
  | zero => omega
  | succ v ih =>
    by_cases h0 : v = 0
    · subst h0
      have h1 : Nat.log 2 1 = 0 := Nat.log_one_right 2
      simp [cwState, h1]
    · have hv1 : 1 ≤ v := by omega
      have IH := ih hv1
      rw [cwState, IH]
      set L := Nat.log 2 v + 1 with hL
      have hvL : v < 2 ^ L := Nat.lt_pow_succ_log_self (by norm_num) v
      have h1L : 1 ≤ 2 ^ L := Nat.one_le_two_pow
      by_cases hgt : v + 1 > 2 ^ L - 1
      · have hVeq : v + 1 = 2 ^ L := by omega
        rw [if_pos hgt]
        have hlog : Nat.log 2 (v + 1) = L := by
          rw [hVeq]; exact Nat.log_pow (by norm_num) L
        rw [hlog]
        have hpow : 2 ^ (L + 1) = 2 * 2 ^ L := by ring
        have harith : 2 * (2 ^ L - 1) + 1 = 2 ^ (L + 1) - 1 := by omega
        rw [harith]
      · rw [if_neg hgt]
        have hlt : v + 1 < 2 ^ L := by omega
        have hlog : Nat.log 2 (v + 1) = Nat.log 2 v := by
          apply Nat.log_eq_of_pow_le_of_lt_pow
          · exact le_trans (Nat.pow_log_le_self 2 (by omega)) (by omega)
          · rw [← hL] at *; exact hlt
        rw [hlog]

/-- The bit length `Nat.log 2 v + 1` of `v ≥ 1` is `⌈log2 (v+1)⌉`. -/
theorem clog_eq_bitlen (v : Nat) (hv : 1 ≤ v) :
    Nat.clog 2 (v + 1) = Nat.log 2 v + 1 := by
  apply le_antisymm
  · rw [← Nat.le_pow_iff_clog_le (by norm_num)]
    exact Nat.succ_le_of_lt (Nat.lt_pow_succ_log_self (by norm_num) v)
  · have h : 2 ^ Nat.log 2 v < v + 1 := by
      have := Nat.pow_log_le_self 2 (show v ≠ 0 by omega)
      omega
    have := (Nat.pow_lt_iff_lt_clog (by norm_num)).1 h
    omega

theorem zeroRuns_val_nonzero : ∀ (l : List Int) (r : Nat) (v : Int),
    (r, v) ∈ zeroRuns l → v ≠ 0 := by
  intro l
  induction l with
  | nil => intro r v h; simp [zeroRuns] at h
  | cons x xs ih =>
    intro r v h
    rw [zeroRuns] at h
    by_cases hx : x = 0
    · rw [if_pos hx] at h
      rcases hzr : zeroRuns xs with _ | ⟨⟨r0, v0⟩, rest⟩
      · rw [hzr] at h; simp at h
      · rw [hzr] at h
        rcases List.mem_cons.1 h with heq | hmem
        · have : v = v0 := by simpa using congrArg Prod.snd heq
          subst this
          exact ih r0 v (by rw [hzr]; exact List.mem_cons_self _ _)
        · exact ih r v (by rw [hzr]; exact List.mem_cons_of_mem _ hmem)
    · rw [if_neg hx] at h
      rcases List.mem_cons.1 h with heq | hmem
      · have : v = x := by simpa using congrArg Prod.snd heq
        subst this; exact hx
      · exact ih r v hmem

theorem flatMap_congr_mem {α β : Type _} (l : List α) (f g : α → List β)
    (h : ∀ a ∈ l, f a = g a) : l.flatMap f = l.flatMap g := by
  induction l with
  | nil => rfl
  | cons a as ih =>
    rw [List.flatMap_cons, List.flatMap_cons, h a (List.mem_cons_self a as),
      ih fun a ha => h a (List.mem_cons_of_mem _ ha)]

/-- `specAC` applies the bit-count function only at non-zero values. -/
theorem specAC_congr (nb nb' : Int → Nat) (l : List Int)
    (h : ∀ v : Int, v ≠ 0 → nb v = nb' v) : specAC nb l = specAC nb' l := by
  unfold specAC
  apply flatMap_congr_mem
  intro rv hrv
  rw [h rv.2 (zeroRuns_val_nonzero l rv.1 rv.2 hrv)]

/-- The AC emission of `encode_block` applies the bit-count function
only at non-zero values. -/
theorem acEvents_congr (q : Nat → Int) (nb nb' : Int → Nat)
    (h : ∀ v : Int, v ≠ 0 → nb v = nb' v) : acEvents q nb = acEvents q nb' := by
  rw [acEvents_eq, acEvents_eq, specAC_congr nb nb' _ h]

theorem specAC_val_mem (nb : Int → Nat) (l : List Int) (v : Int)
    (h : AcEmit.val v ∈ specAC nb l) : v ≠ 0 := by
  unfold specAC at h
  rcases List.mem_flatMap.1 h with ⟨rv, hrv, hmem⟩
  rcases List.mem_append.1 hmem with hrep | hsym
  · exact absurd (List.eq_of_mem_replicate hrep) (by simp)
  · simp only [List.mem_cons, List.not_mem_nil, or_false] at hsym
    rcases hsym with h1 | h1
    · exact absurd h1 (by simp)
    · have hv2 : v = rv.2 := by
        injection h1
      rw [hv2]
      exact zeroRuns_val_nonzero l rv.1 rv.2 hrv

/-- Every value event in the AC emission carries a non-zero value. -/
theorem acEvents_val_mem (q : Nat → Int) (nb : Int → Nat) (v : Int)
    (h : AcEmit.val v ∈ acEvents q nb) : v ≠ 0 := by
  rw [acEvents_eq] at h
  rcases List.mem_append.1 h with h1 | h1
  · exact specAC_val_mem nb _ v h1
  · by_cases hq : q 63 = 0 <;> simp [hq] at h1

/-- Replaying events through two codeword tables that agree away from 0
gives the same writer state, provided every value event is non-zero. -/
theorem acFold_congr (hac : Nat → BitCode) (cw cw' : Int → BitCode)
    (hcw : ∀ x : Int, x ≠ 0 → cw x = cw' x) :
    ∀ (evs : List AcEmit), (∀ v, AcEmit.val v ∈ evs → v ≠ 0) → ∀ s : BWSt,
      evs.foldl (acStep hac cw) s = evs.foldl (acStep hac cw') s := by
  intro evs
  induction evs with
  | nil => intro _ s; rfl
  | cons e es ih =>
    intro hv s
    rw [List.foldl_cons, List.foldl_cons]
    have hstep : acStep hac cw s e = acStep hac cw' s e := by
      cases e with
      | sym n => rfl
      | val v =>
        have : v ≠ 0 := hv v (List.mem_cons_self _ _)
        simp [acStep, hcw v this]
    rw [hstep]
    exact ih (fun v hmem => hv v (List.mem_cons_of_mem _ hmem)) _

/-- `encode_block` never reads the codeword table at 0: its output is
unchanged under any modification of the entry for value 0. -/
theorem encode_block_cw0_unread (cw cw' : Int → BitCode)
    (hcw : ∀ x : Int, x ≠ 0 → cw x = cw' x) (K : FloatConsts) (luminance : Bool)
    (st : BWSt) (block : Fin 8 → Fin 8 → ℚ) (scaled : Fin 64 → ℚ) (lastDC : Int) :
    encode_block K cw luminance st block scaled lastDC =
      encode_block K cw' luminance st block scaled lastDC := by
  have hnb : ∀ v : Int, v ≠ 0 → (cw v).numBits = (cw' v).numBits :=
    fun v hv => by rw [hcw v hv]
  unfold encode_block
  dsimp only
  rw [acEvents_congr _ (fun v : Int => (cw v).numBits) (fun v : Int => (cw' v).numBits) hnb]
  have hdc : ∀ (DCv : Int) (hdc1 : Nat → BitCode),
      (if DCv - lastDC = 0 then emitBC st (hdc1 0x00)
       else emitBC (emitBC st (hdc1 (cw (DCv - lastDC)).numBits)) (cw (DCv - lastDC))) =
      (if DCv - lastDC = 0 then emitBC st (hdc1 0x00)
       else emitBC (emitBC st (hdc1 (cw' (DCv - lastDC)).numBits)) (cw' (DCv - lastDC))) := by
    intro DCv hdc1
    by_cases h : DCv - lastDC = 0
    · rw [if_pos h, if_pos h]
    · rw [if_neg h, if_neg h, hcw _ h]
  rw [hdc]
  simp only [Prod.mk.injEq]
  refine ⟨?_, trivial⟩
  exact acFold_congr _ cw cw' hcw _ (fun v hv => acEvents_val_mem _ _ v hv) _

/-- Claim C7: for every `v ∈ [1, 2048)` the codeword table maps
`CW[+v] = (code = v, bits = ⌈log2(v+1)⌉)` and
`CW[-v] = (code = (2^bits - 1) - v, bits = the same)`, and `CW[0]` is
never read by the block encoder: its output is invariant under changing
the codeword table at 0. -/
theorem C7_codeword_table :
    (∀ v : Nat, 1 ≤ v → v < CodeWordLimit →
      codeword (v : Int) = ⟨v, Nat.clog 2 (v + 1)⟩ ∧
      codeword (-(v : Int)) = ⟨2 ^ Nat.clog 2 (v + 1) - 1 - v, Nat.clog 2 (v + 1)⟩) ∧
    (∀ cw cw' : Int → BitCode, (∀ x : Int, x ≠ 0 → cw x = cw' x) →
      ∀ (K : FloatConsts) (luminance : Bool) (st : BWSt)
        (block : Fin 8 → Fin 8 → ℚ) (scaled : Fin 64 → ℚ) (lastDC : Int),
        encode_block K cw luminance st block scaled lastDC =
          encode_block K cw' luminance st block scaled lastDC) := by
  constructor
  · intro v h1 h2
    have hstate := cwState_closed v h1
    have hclog := clog_eq_bitlen v h1
    have hna : ((v : Int)).natAbs = v := Int.natAbs_ofNat v
    have hnan : ((-(v : Int))).natAbs = v := by simp
    have hpos : (0 : Int) < (v : Int) := by exact_mod_cast h1
    have hneg : ¬((0 : Int) < -(v : Int)) := by
      simp only [not_lt, Left.neg_nonpos_iff]
      exact_mod_cast Nat.zero_le v
    constructor
    · unfold codeword
      rw [hna, if_pos ⟨h1, h2⟩, hstate]
      rw [if_pos hpos, hclog]
    · unfold codeword
      rw [hnan, if_pos ⟨h1, h2⟩, hstate]
      rw [if_neg hneg, hclog]
  · exact fun cw cw' h K lum st block scaled lastDC =>
      encode_block_cw0_unread cw cw' h K lum st block scaled lastDC

/-- Witness for C7 at `v = 5` and a concrete pair of codeword tables
that agree away from 0. -/
theorem C7_codeword_table_witness :
    (codeword ((5 : Nat) : Int) = ⟨5, Nat.clog 2 (5 + 1)⟩ ∧
      codeword (-((5 : Nat) : Int)) =
        ⟨2 ^ Nat.clog 2 (5 + 1) - 1 - 5, Nat.clog 2 (5 + 1)⟩) ∧
    encode_block testConsts (fun _ => ⟨0, 0⟩) true ⟨⟨0, 0⟩, []⟩
        (fun _ _ => 0) (fun _ => 0) 0 =
      encode_block testConsts (fun x => if x = 0 then ⟨7, 7⟩ else ⟨0, 0⟩) true
        ⟨⟨0, 0⟩, []⟩ (fun _ _ => 0) (fun _ => 0) 0 := by
  refine ⟨C7_codeword_table.1 5 (by norm_num) (by norm_num [CodeWordLimit]), ?_⟩
  exact C7_codeword_table.2 _ _ (fun x hx => by simp [hx]) testConsts true _ _ _ _

/-- Witness for C10 on a concrete quantized array (non-zero only at
zig-zag position 3), entering the inner loop at `i = 2`. -/
theorem C10_inner_while_safety_witness :
    (innerSkip (fun i => if i = 3 then (1 : Int) else 0) 64 2 (16 * 0)).2.1 ≤
      posNonZero (fun i => if i = 3 then (1 : Int) else 0) ∧
    (fun i => if i = 3 then (1 : Int) else 0)
      ((innerSkip (fun i => if i = 3 then (1 : Int) else 0) 64 2 (16 * 0)).2.1) ≠ 0 := by
  have h := C10_inner_while_safety fun i => if i = 3 then (1 : Int) else 0
  have h3 := (h.2.2 2 0 (by norm_num) (by decide) (by norm_num)).1
  exact ⟨h3.2.1, h3.2.2⟩

/-! ### C6: border replication in the 4:4:4 pixel loop -/

theorem sampleCol_eq (maxW c0 : Nat) : ∀ d, sampleCol maxW c0 d = min (c0 + d) maxW := by
  intro d
  induction d with
  | zero => simp [sampleCol]
  | succ d ih =>
    rw [sampleCol, ih]
    split <;> omega

/-- Claim C6: in 4:4:4 mode (and grayscale), the sample written at
`(dy, dx)` of the 8×8 block at MCU origin `(mcuX, mcuY)` is computed
from the pixel at row `min (mcuY+dy) (H-1)` and column
`min (mcuX+dx) (W-1)`: the last row/column is replicated when the image
size is not a multiple of 8.  This holds for the Y samples (grayscale
and RGB) and for the Cb/Cr samples of the RGB 4:4:4 path. -/
theorem C6_border_replication (isRGB : Bool) (px : Nat → Nat) (W H mcuX mcuY : Nat)
    (dy dx : Fin 8) :
    fillY isRGB px W (W - 1) (H - 1) mcuX mcuY 0 0 dy dx =
      (if isRGB then
        rgb2y (px (3 * (min (mcuY + dy.val) (H - 1) * W + min (mcuX + dx.val) (W - 1))))
          (px (3 * (min (mcuY + dy.val) (H - 1) * W + min (mcuX + dx.val) (W - 1)) + 1))
          (px (3 * (min (mcuY + dy.val) (H - 1) * W + min (mcuX + dx.val) (W - 1)) + 2))
          - 128
      else
        (px (min (mcuY + dy.val) (H - 1) * W + min (mcuX + dx.val) (W - 1)) : ℚ) - 128) ∧
    fillCb px W (W - 1) (H - 1) mcuX mcuY 0 0 dy dx =
      rgb2cb (px (3 * (min (mcuY + dy.val) (H - 1) * W + min (mcuX + dx.val) (W - 1))))
        (px (3 * (min (mcuY + dy.val) (H - 1) * W + min (mcuX + dx.val) (W - 1)) + 1))
        (px (3 * (min (mcuY + dy.val) (H - 1) * W + min (mcuX + dx.val) (W - 1)) + 2)) ∧
    fillCr px W (W - 1) (H - 1) mcuX mcuY 0 0 dy dx =
      rgb2cr (px (3 * (min (mcuY + dy.val) (H - 1) * W + min (mcuX + dx.val) (W - 1))))
        (px (3 * (min (mcuY + dy.val) (H - 1) * W + min (mcuX + dx.val) (W - 1)) + 1))
        (px (3 * (min (mcuY + dy.val) (H - 1) * W + min (mcuX + dx.val) (W - 1)) + 2)) := by
  refine ⟨?_, ?_, ?_⟩ <;>
    simp [fillY, fillCb, fillCr, blockRow, sampleCol_eq]

/-! ### C8: determinism -/

/-- Claim C8: the encode operation is deterministic — two runs on
componentwise identical `(pixels, width, height, is_rgb, downsample,
quality, comment)` tuples (and the same modelled float constants) pass
the identical byte sequence to the sink, in the same order.  The
embedding is a pure function of exactly this tuple, mirroring the
absence of global mutable state and of any other input in the source. -/
theorem C8_deterministic (K : FloatConsts)
    (p1 p2 : Option (Nat → Nat)) (W1 W2 H1 H2 : Nat) (d1 d2 r1 r2 : Bool)
    (q1 q2 : Nat) (c1 c2 : List Nat)
    (hp : p1 = p2) (hW : W1 = W2) (hH : H1 = H2) (hd : d1 = d2) (hr : r1 = r2)
    (hq : q1 = q2) (hc : c1 = c2) :
    writeJpegQuality K p1 W1 H1 d1 r1 q1 c1 =
      writeJpegQuality K p2 W2 H2 d2 r2 q2 c2 := by
  subst hp hW hH hd hr hq hc
  rfl

/-- Witness for C8 on a concrete input tuple. -/
theorem C8_deterministic_witness :
    writeJpegQuality testConsts (some fun _ => 0) 1 1 false false 50 [] =
      writeJpegQuality testConsts (some fun _ => 0) 1 1 false false 50 [] :=
  C8_deterministic testConsts (some fun _ => 0) (some fun _ => 0) 1 1 1 1
    false false false false 50 50 [] [] rfl rfl rfl rfl rfl rfl rfl

/-! ### C9: validation order and error channels -/

/-- Claim C9: `writeJpegQuality` checks quality before pixels and
dimensions, and signals the three argument errors through two distinct
channels: an out-of-range quality raises the exception (modelled as
`Except.error`) even when the pixels are null or a dimension is zero,
while a null pixel pointer or a zero width/height makes the call return
`false` without raising; in all three cases no byte is passed to the
sink (the emitted byte list is empty). -/
theorem C9_validation_order (K : FloatConsts) (pixels : Option (Nat → Nat))
    (W H : Nat) (ds rgb : Bool) (q : Nat) (c : List Nat) :
    (¬(1 < q ∧ q ≤ 100) →
      writeJpegQuality K pixels W H ds rgb q c =
        (Except.error "Quality must be in [1..100]", [])) ∧
    ((1 < q ∧ q ≤ 100) → pixels = none →
      writeJpegQuality K pixels W H ds rgb q c = (Except.ok false, [])) ∧
    (∀ px, (1 < q ∧ q ≤ 100) → pixels = some px → (W = 0 ∨ H = 0) →
      writeJpegQuality K pixels W H ds rgb q c = (Except.ok false, [])) := by
  refine ⟨?_, ?_, ?_⟩
  · intro h
    simp [writeJpegQuality, h]
  · rintro ⟨h1, h2⟩ rfl
    simp [writeJpegQuality, h1, h2]
  · rintro px ⟨h1, h2⟩ rfl h0
    simp [writeJpegQuality, h1, h2, h0]

/-- Witness for C9: all three rejection paths at concrete inputs. -/
theorem C9_validation_order_witness :
    writeJpegQuality testConsts (some fun _ => 0) 1 1 false false 101 [] =
      (Except.error "Quality must be in [1..100]", []) ∧
    writeJpegQuality testConsts none 1 1 false false 50 [] = (Except.ok false, []) ∧
    writeJpegQuality testConsts (some fun _ => 0) 0 1 false false 50 [] =
      (Except.ok false, []) := by
  refine ⟨?_, ?_, ?_⟩
  · exact (C9_validation_order testConsts (some fun _ => 0) 1 1 false false 101 []).1
      (by norm_num)
  · exact (C9_validation_order testConsts none 1 1 false false 50 []).2.1
      (by norm_num) rfl
  · exact (C9_validation_order testConsts (some fun _ => 0) 0 1 false false 50 []).2.2
      (fun _ => 0) (by norm_num) rfl (by norm_num)

/-! ### C1: the quality guard (code bug) -/

/-- Claim C1 evaluated on the code: the guard
`!(quality_ > 1 && quality_ <= 100)` in `writeJpegQuality` rejects
quality 1 with the exception whose own message reads
"Quality must be in [1..100]" (and the header documents quality
"between 1 (worst) and 100 (best)"), while quality 0 and 101 are also
rejected and qualities 2 and 100 are accepted and encode successfully.
So encoding succeeds exactly for quality in [2,100], not [1,100] as
claimed and as the code's own documentation states. -/
theorem C1_quality1_rejected_despite_docs :
    writeJpegQuality testConsts (some fun _ => 0) 1 1 false false 1 [] =
      (Except.error "Quality must be in [1..100]", []) ∧
    writeJpegQuality testConsts (some fun _ => 0) 1 1 false false 0 [] =
      (Except.error "Quality must be in [1..100]", []) ∧
    writeJpegQuality testConsts (some fun _ => 0) 1 1 false false 101 [] =
      (Except.error "Quality must be in [1..100]", []) ∧
    (writeJpegQuality testConsts (some fun _ => 0) 1 1 false false 2 []).1 =
      Except.ok true ∧
    (writeJpegQuality testConsts (some fun _ => 0) 1 1 false false 100 []).1 =
      Except.ok true := by
  refine ⟨rfl, rfl, rfl, rfl, rfl⟩

/-! ### C5: quantization-table building (code bug) -/

/-- For qualities 20..100 the built table does match the spec formula:
there the libjpeg scale factor fits in the `unsigned char` parameter. -/
theorem quant_table_matches_spec_for_q20 (q : Nat) (h20 : 20 ≤ q) (h100 : q ≤ 100)
    (defaults : Fin 64 → Nat) (i : Fin 64) :
    quant_table defaults (libjpegScale q % 256) i = quantSpec (zigzagView defaults) q i := by
  have hlt : libjpegScale q < 256 := by
    unfold libjpegScale
    split
    · calc 5000 / q ≤ 5000 / 20 := Nat.div_le_div_left h20 (by omega)
        _ < 256 := by norm_num
    · omega
  rw [Nat.mod_eq_of_lt hlt]
  rfl

/-- Witness for `quant_table_matches_spec_for_q20` at quality 90 and
index 0. -/
theorem quant_table_matches_spec_for_q20_witness :
    quant_table DefaultQuantLuminance_A (libjpegScale 90 % 256) 0 =
      quantSpec (zigzagView DefaultQuantLuminance_A) 90 0 :=
  quant_table_matches_spec_for_q20 90 (by norm_num) (by norm_num)
    DefaultQuantLuminance_A 0

/-- Claim C5 evaluated on the code at the failing input quality 19:
`quant_table`'s `unsigned char quality` parameter truncates the libjpeg
scale factor `5000/19 = 263` to `263 % 256 = 7`, so the first table
entry becomes `clamp((16*7+50)/100, 1, 255) = 1` instead of the spec's
`clamp((16*263+50)/100, 1, 255) = 42`; the table written into the DQT
segment (byte 25 of the stream for a comment-less grayscale encode)
shows the truncated value. -/
theorem C5_quant_scale_truncated_mod256 :
    libjpegScale 19 = 263 ∧
    quant_table DefaultQuantLuminance_A (libjpegScale 19 % 256) 0 = 1 ∧
    quantSpec (zigzagView DefaultQuantLuminance_A) 19 0 = 42 ∧
    quant_table DefaultQuantLuminance_A (libjpegScale 19 % 256) 0 ≠
      quantSpec (zigzagView DefaultQuantLuminance_A) 19 0 ∧
    (writeJpegQuality testConsts (some fun _ => 0) 1 1 false false 19 []).2.getD 25 0
      = 1 := by
  refine ⟨rfl, by decide, by decide, by decide, ?_⟩
  rfl

/-! ### C2: comment containing 0xFF (corrected) -/

/-- Counterexample to claim C2 as stated: encoding a valid 1×1
grayscale image with the comment `[0xFF]` does not fail at input
validation — the call succeeds (`.ok true`) and the `0xFF` byte is
emitted into the COM segment (stream bytes 20–24 are
`FF FE 00 03 FF`). -/
theorem C2_counterexample_ff_comment_accepted :
    (writeJpegQuality testConsts (some fun _ => 0) 1 1 false false 50 [0xFF]).1 =
      Except.ok true ∧
    (writeJpegQuality testConsts (some fun _ => 0) 1 1 false false 50 [0xFF]).2.take 25 =
      HeaderJfif ++ [0xFF, 0xFE, 0x00, 0x03, 0xFF] := by
  refine ⟨rfl, ?_⟩
  rfl

/-- For any non-empty comment the encoder emits the COM marker followed
by the comment bytes verbatim, directly after the 20-byte SOI/APP0
header. -/
theorem writeJpegIntern_comment_prefix (K : FloatConsts) (px : Nat → Nat)
    (W H : Nat) (ds rgb : Bool) (qL qC : Fin 64 → Nat) (sL sC : Fin 64 → ℚ)
    (c : List Nat) (hc : c ≠ []) :
    ∃ rest, (writeJpegIntern K px W H ds rgb qL qC sL sC c).2 =
      HeaderJfif ++ addMarker 0xFE ((2 + c.length) % 65536) ++ c ++ rest := by
  unfold writeJpegIntern
  dsimp only
  rw [if_pos hc]
  apply Exists.intro
  simp only [List.append_assoc]
  rfl

/-- Claim C2 amended: a comment containing `0xFF` is not rejected —
there is no comment validation at all.  For otherwise valid arguments
and any non-empty comment (in particular one containing `0xFF`), the
encode succeeds and the comment bytes, `0xFF` included, are emitted
verbatim in the COM segment right after the SOI/APP0 header. -/
theorem C2_amended_ff_comment_passthrough (K : FloatConsts) (px : Nat → Nat)
    (W H : Nat) (ds rgb : Bool) (q : Nat) (c : List Nat)
    (hq1 : 1 < q) (hq100 : q ≤ 100) (hW : W ≠ 0) (hH : H ≠ 0)
    (hff : (0xFF : Nat) ∈ c) :
    (writeJpegQuality K (some px) W H ds rgb q c).1 = Except.ok true ∧
    ∃ rest, (writeJpegQuality K (some px) W H ds rgb q c).2 =
      HeaderJfif ++ addMarker 0xFE ((2 + c.length) % 65536) ++ c ++ rest := by
  have hc : c ≠ [] := by rintro rfl; cases hff
  have hguard : ¬¬(1 < q ∧ q ≤ 100) := not_not_intro ⟨hq1, hq100⟩
  have hdim : ¬(W = 0 ∨ H = 0) := by
    rintro (h | h)
    · exact hW h
    · exact hH h
  constructor
  · simp only [writeJpegQuality, if_neg hguard, if_neg hdim]
    rfl
  · simp only [writeJpegQuality, if_neg hguard, if_neg hdim]
    exact writeJpegIntern_comment_prefix K px W H
      (if !rgb then false else ds) rgb _ _ _ _ c hc

/-- Witness for the amended C2 on a concrete comment containing
`0xFF`. -/
theorem C2_amended_ff_comment_passthrough_witness :
    (writeJpegQuality testConsts (some fun _ => 0) 1 1 false false 50 [0xFF, 65]).1 =
      Except.ok true ∧
    ∃ rest,
      (writeJpegQuality testConsts (some fun _ => 0) 1 1 false false 50 [0xFF, 65]).2 =
        HeaderJfif ++ addMarker 0xFE ((2 + [0xFF, 65].length) % 65536) ++
          [0xFF, 65] ++ rest :=
  C2_amended_ff_comment_passthrough testConsts (fun _ => 0) 1 1 false false 50
    [0xFF, 65] (by norm_num) (by norm_num) (by norm_num) (by norm_num) (by decide)

end TooJpeg17
